import Mathlib

/-!
Verification of the window-switcher coordination engine.

This development shallowly embeds the switching logic of the repository:
`App::switch_windows`, `App::switch_apps`, `App::do_switch_app`,
`App::cancel_switch_app` and the user-message dispatch of
`App::handle_message` (src/app.rs), together with the low-level keyboard
hook `keyboard_proc` (src/keyboard.rs).

Window handles (`HWND` / `isize`) are modelled as `Int`, module paths as
`String`, scan codes and indices as `Nat`.  The enumerated window list
(`IndexMap<String, Vec<(HWND, _)>>` returned by `list_windows`) is a list of
key/value pairs with the insertion order preserved; fallible enumeration is
an `Except Unit` value passed in as a parameter.
-/

namespace WindowSwitcher

/-- One effect issued to the outside world by the coordinator:
`set_foreground_window`, `painter.paint`, `painter.unpaint`. -/
inductive Effect where
  | activate (id : Int)
  | paint
  | unpaint
deriving DecidableEq, Repr

/-- The `SwitchWindowsState` struct of src/app.rs: the sticky window-cycle
cache `(module_path, state_id, index, state_windows)` and the
`modifier_released` flag. -/
structure SwitchWindowsState where
  cache : Option (String × Int × Nat × List Int)
  modifier_released : Bool
deriving DecidableEq, Repr

/-- The `SwitchAppsState` struct of src/app.rs: `apps` is the snapshotted
list of `(HICON, HWND)` pairs (icons modelled as `Nat`), `index` the current
selection. -/
structure SwitchAppsState where
  apps : List (Nat × Int)
  index : Nat
deriving DecidableEq, Repr

/-- The enumerated window list: ordered `(module_path, window ids)` groups,
as produced by `list_windows` (an `IndexMap`, keys unique, values ordered
with the foreground sibling first). -/
abbrev WinList := List (String × List Int)

/-- `windows.iter().find(|(_, v)| v.iter().any(|(id, _)| *id == hwnd)).map(|(k, _)| k.clone())`
from `App::switch_windows`: the key of the first group containing `hwnd`. -/
def findModulePath (wins : WinList) (hwnd : Int) : Option String :=
  (wins.find? (fun kv => kv.2.any (fun id => id == hwnd))).map (fun kv => kv.1)

/-- `windows.get(&module_path)` on the enumerated `IndexMap`: the value of
the first group whose key is `k`. -/
def lookupModule (wins : WinList) (k : String) : Option (List Int) :=
  (wins.find? (fun kv => kv.1 == k)).map (fun kv => kv.2)

/-- Helper for `dedupFirst`: skip elements already seen. -/
def dedupFirstAux (seen : List Int) : List Int → List Int
  | [] => []
  | x :: xs =>
    if seen.contains x then dedupFirstAux seen xs
    else x :: dedupFirstAux (x :: seen) xs

/-- Keep-first deduplication: building `IndexSet<isize>` from the window ids
(`windows.iter().map(|(v, _)| v.0).collect()`) keeps the first occurrence of
each id, in insertion order. -/
def dedupFirst (l : List Int) : List Int := dedupFirstAux [] l

/-- `IndexSet::swap_remove`: remove `id` by overwriting its slot with the
last element and popping the last element; no-op when `id` is absent. -/
def swapRemove (l : List Int) (id : Int) : List Int :=
  match l.findIdx? (fun y => y == id) with
  | none => l
  | some i =>
    match l.getLast? with
    | none => l
    | some last => (l.set i last).dropLast

/-- The cache-reconstruction loop of `App::switch_windows`
(`for id in cache_windows { if windows_set.contains(id) { state_windows.push(*id); windows_set.swap_remove(id); } }`):
returns the pushed prefix and the leftover of the index set. -/
def reconstruct : List Int → List Int → List Int × List Int
  | [], s => ([], s)
  | c :: cws, s =>
    if s.contains c then
      let pr := reconstruct cws (swapRemove s c)
      (c :: pr.1, pr.2)
    else reconstruct cws s

/-- `App::switch_windows` (src/app.rs lines 364-449), after the enumeration
result has been obtained.  Returns the `Ok` boolean, the new
`switch_windows_state` and the activation effects issued. -/
def switch_windows (st : SwitchWindowsState) (wins : WinList) (hwnd : Int)
    (reverse : Bool) : Bool × SwitchWindowsState × List Effect :=
  match findModulePath wins hwnd with
  | none => (false, st, [])
  | some module_path =>
    match lookupModule wins module_path with
    | none => (false, st, [])
    | some windows =>
      let windows_len := windows.length
      if windows_len == 1 then (false, st, [])
      else
        let current_id := windows.headD 0
        let isw : Nat × Int × List Int :=
          if windows_len > 2 then
            match st.cache with
            | some (cache_module_path, cache_id, cache_index, cache_windows) =>
              if cache_module_path == module_path then
                if st.modifier_released then
                  if cache_id != current_id then
                    match windows.findIdx? (fun v => v == cache_id) with
                    | some i => (i, current_id, [])
                    | none => (1, current_id, [])
                  else (1, current_id, [])
                else
                  let windows_set := dedupFirst windows
                  let pr := reconstruct cache_windows windows_set
                  let idx :=
                    if reverse then
                      if cache_index == 0 then windows_len - 1 else cache_index - 1
                    else if cache_index ≥ windows_len - 1 then 0
                    else cache_index + 1
                  (idx, cache_id, pr.1 ++ pr.2)
              else (1, current_id, [])
            | none => (1, current_id, [])
          else (1, current_id, [])
        let index := isw.1
        let state_id := isw.2.1
        let state_windows := if isw.2.2.isEmpty then windows else isw.2.2
        let target := (state_windows.get? index).getD (state_windows.headD 0)
        (true,
         { cache := some (module_path, state_id, index, state_windows),
           modifier_released := false },
         [Effect.activate target])

/-- The whole `App::switch_windows` body including the leading
`list_windows(..)?`: an enumeration error aborts before any state change. -/
def switch_windows_msg (st : SwitchWindowsState) (enumRes : Except Unit WinList)
    (hwnd : Int) (reverse : Bool) :
    Except Unit Bool × SwitchWindowsState × List Effect :=
  match enumRes with
  | .error e => (.error e, st, [])
  | .ok wins =>
    let r := switch_windows st wins hwnd reverse
    (.ok r.1, r.2.1, r.2.2)

/-- The in-place advance of `App::switch_apps` performed when a cycle is
already active (src/app.rs lines 456-467). -/
def advance_apps (s : SwitchAppsState) (reverse : Bool) : SwitchAppsState :=
  if reverse then
    if s.index == 0 then { s with index := s.apps.length - 1 }
    else { s with index := s.index - 1 }
  else if s.index == s.apps.length - 1 then { s with index := 0 }
  else { s with index := s.index + 1 }

/-- `App::switch_apps` (src/app.rs lines 451-515).  `getIcon` stands for the
`cached_icons`/`get_app_icon` lookup, `iconic` for `is_iconic_window`.
Returns the `Result` outcome and the new `switch_apps_state`. -/
def switch_apps (st : Option SwitchAppsState) (enumRes : Except Unit WinList)
    (getIcon : String → Int → Nat) (iconic : Int → Bool) (reverse : Bool) :
    Except Unit Unit × Option SwitchAppsState :=
  match st with
  | some s => (.ok (), some (advance_apps s reverse))
  | none =>
    match enumRes with
    | .error e => (.error e, none)
    | .ok wins =>
      let apps := wins.foldr
        (fun kv acc =>
          match kv.2 with
          | [] => acc
          | h :: t =>
            let module_hwnd := if iconic h then ((h :: t).getLast?).getD h else h
            (getIcon kv.1 module_hwnd, module_hwnd) :: acc)
        []
      if apps.length == 0 then (.ok (), none)
      else
        let index :=
          if apps.length == 1 then 0
          else if reverse then apps.length - 1
          else 1
        (.ok (), some { apps := apps, index := index })

/-- `App::do_switch_app` (src/app.rs lines 526-533): take the state, activate
the window at the current index when it exists, unpaint the overlay. -/
def do_switch_app (st : Option SwitchAppsState) :
    Option SwitchAppsState × List Effect :=
  match st with
  | none => (none, [])
  | some s =>
    let acts :=
      match s.apps.get? s.index with
      | some p => [Effect.activate p.2]
      | none => []
    (none, acts ++ [Effect.unpaint])

/-- `App::cancel_switch_app` (src/app.rs lines 535-539): take the state and
unpaint, activating nothing. -/
def cancel_switch_app (st : Option SwitchAppsState) :
    Option SwitchAppsState × List Effect :=
  match st with
  | none => (none, [])
  | some _ => (none, [Effect.unpaint])

/-- The five switching intents delivered to `App::handle_message`
(`WM_USER_SWITCH_APPS`, `WM_USER_SWITCH_APPS_DONE`,
`WM_USER_SWITCH_APPS_CANCEL`, `WM_USER_SWITCH_WINDOWS`,
`WM_USER_SWITCH_WINDOWS_DONE`). -/
inductive AppMsg where
  | switchApps (reverse : Bool)
  | switchAppsDone
  | switchAppsCancel
  | switchWindows (reverse : Bool)
  | switchWindowsDone
deriving DecidableEq, Repr

/-- The switching-relevant part of the `App` struct: both state machines. -/
structure CoordState where
  switch_windows_state : SwitchWindowsState
  switch_apps_state : Option SwitchAppsState
deriving DecidableEq, Repr

/-- The switching branches of `App::handle_message` (src/app.rs lines
263-362).  `enumW`/`enumA` are the `list_windows` results that would be
obtained inside the respective branch, `fg` is `get_foreground_window()`. -/
def handle_message (st : CoordState) (enumW enumA : Except Unit WinList)
    (getIcon : String → Int → Nat) (iconic : Int → Bool) (fg : Int)
    (msg : AppMsg) : CoordState × List Effect :=
  match msg with
  | .switchApps reverse =>
    let r := switch_apps st.switch_apps_state enumA getIcon iconic reverse
    match r.1 with
    | .error _ => ({ st with switch_apps_state := r.2 }, [])
    | .ok _ =>
      let eff := match r.2 with
        | some _ => [Effect.paint]
        | none => []
      ({ st with switch_apps_state := r.2 }, eff)
  | .switchAppsDone =>
    let r := do_switch_app st.switch_apps_state
    ({ st with switch_apps_state := r.1 }, r.2)
  | .switchAppsCancel =>
    let r := cancel_switch_app st.switch_apps_state
    ({ st with switch_apps_state := r.1 }, r.2)
  | .switchWindows reverse =>
    let hwnd :=
      match st.switch_apps_state with
      | some s =>
        match s.apps.get? s.index with
        | some p => p.2
        | none => fg
      | none => fg
    let r := switch_windows_msg st.switch_windows_state enumW hwnd reverse
    ({ st with switch_windows_state := r.2.1 }, r.2.2)
  | .switchWindowsDone =>
    ({ st with
        switch_windows_state :=
          { st.switch_windows_state with modifier_released := true } }, [])

/-! ### Helper lemmas -/

theorem key_unique {wins : WinList} {a b : String × List Int}
    (hnd : (wins.map Prod.fst).Nodup) (ha : a ∈ wins) (hb : b ∈ wins)
    (hk : a.1 = b.1) : a = b := by
  induction wins with
  | nil => cases ha
  | cons kv rest ih =>
    simp only [List.map_cons, List.nodup_cons] at hnd
    rcases List.mem_cons.mp ha with rfl | ha'
    · rcases List.mem_cons.mp hb with rfl | hb'
      · rfl
      · exact absurd (hk ▸ List.mem_map_of_mem Prod.fst hb') hnd.1
    · rcases List.mem_cons.mp hb with rfl | hb'
      · exact absurd (hk ▸ List.mem_map_of_mem Prod.fst ha') hnd.1
      · exact ih hnd.2 ha' hb'

theorem findModulePath_mem {wins : WinList} {hwnd : Int} {mp : String}
    {g : List Int} (hnd : (wins.map Prod.fst).Nodup)
    (hf : findModulePath wins hwnd = some mp)
    (hl : lookupModule wins mp = some g) : hwnd ∈ g := by
  unfold findModulePath at hf
  unfold lookupModule at hl
  rcases hfind : wins.find? (fun kv => kv.2.any (fun id => id == hwnd)) with _ | kv
  · rw [hfind] at hf; cases hf
  rw [hfind] at hf
  simp only [Option.map_some'] at hf
  rcases hlook : wins.find? (fun kv => kv.1 == mp) with _ | kv'
  · rw [hlook] at hl; cases hl
  rw [hlook] at hl
  simp only [Option.map_some'] at hl
  have hkvmem : kv ∈ wins := List.mem_of_find?_eq_some hfind
  have hkvmem' : kv' ∈ wins := List.mem_of_find?_eq_some hlook
  have hp := List.find?_some hfind
  have hq := List.find?_some hlook
  simp only [] at hp hq
  have hkeq : kv.1 = kv'.1 := by
    have h1 : kv.1 = mp := Option.some.inj hf
    have h2 : kv'.1 = mp := eq_of_beq hq
    rw [h1, h2]
  have : kv = kv' := key_unique hnd hkvmem hkvmem' hkeq
  subst this
  have hg2 : kv.2 = g := Option.some.inj hl
  rcases List.any_eq_true.mp hp with ⟨id, hid, hbeq⟩
  rw [← hg2]
  rwa [eq_of_beq hbeq] at hid

/-! ### Claims -/

/-- C2: with cached context `(K, A, index = 1, [A, B, C, D])`,
`modifier_released = false`, and a sibling list shrunk to `[A, C, D]`
(B closed), the next forward advance activates window D.  Ids:
A = 10, B = 20, C = 30, D = 40. -/
theorem claim_C2 :
    switch_windows ⟨some ("K", 10, 1, [10, 20, 30, 40]), false⟩
      [("K", [10, 30, 40])] 10 false
    = (true, ⟨some ("K", 10, 2, [10, 30, 40]), false⟩,
       [Effect.activate 40]) := by
  decide

/-- C6: on an active `SwitchAppsState` with a valid index, commit
(`do_switch_app`) destroys the state and issues exactly one activation, of
the window at the current index; cancel (`cancel_switch_app`) destroys the
state and issues no activation. -/
theorem claim_C6 (s : SwitchAppsState) (h : s.index < s.apps.length) :
    do_switch_app (some s)
      = (none, [Effect.activate (s.apps.get ⟨s.index, h⟩).2, Effect.unpaint])
    ∧ cancel_switch_app (some s) = (none, [Effect.unpaint]) := by
  have hg : s.apps[s.index]? = some (s.apps[s.index]) :=
    List.getElem?_eq_getElem h
  exact ⟨by simp [do_switch_app, hg], rfl⟩

/-- Witness for C6 at a concrete state. -/
theorem claim_C6_witness :
    (1 : Nat) < 2
    ∧ (do_switch_app (some ⟨[(0, 7), (0, 9)], 1⟩)
        = (none, [Effect.activate 9, Effect.unpaint])
      ∧ cancel_switch_app (some ⟨[(0, 7), (0, 9)], 1⟩)
        = (none, [Effect.unpaint])) :=
  ⟨by decide, claim_C6 ⟨[(0, 7), (0, 9)], 1⟩ (by decide)⟩

/-- C7: processing `WM_USER_SWITCH_WINDOWS_DONE` only sets
`modifier_released` to `true`: the window-cycle cache is retained, the
app-cycle state is untouched, and no effect (activation, paint or unpaint)
is issued. -/
theorem claim_C7 (st : CoordState) (enumW enumA : Except Unit WinList)
    (getIcon : String → Int → Nat) (iconic : Int → Bool) (fg : Int) :
    handle_message st enumW enumA getIcon iconic fg .switchWindowsDone
      = ({ switch_windows_state :=
             { cache := st.switch_windows_state.cache,
               modifier_released := true },
           switch_apps_state := st.switch_apps_state }, []) := rfl

/-- C8: a window-cycle advance whose target application has at most one
sibling window is a no-op: it returns `false`, leaves the
`switch_windows_state` unchanged, and issues no activation. -/
theorem claim_C8 (st : SwitchWindowsState) (wins : WinList) (hwnd : Int)
    (reverse : Bool) (mp : String) (g : List Int)
    (hnd : (wins.map Prod.fst).Nodup)
    (hf : findModulePath wins hwnd = some mp)
    (hl : lookupModule wins mp = some g) (hlen : g.length ≤ 1) :
    switch_windows st wins hwnd reverse = (false, st, []) := by
  have hmem : hwnd ∈ g := findModulePath_mem hnd hf hl
  have hpos : 0 < g.length := List.length_pos_of_mem hmem
  have hone : g.length = 1 := Nat.le_antisymm hlen hpos
  simp only [switch_windows, hf, hl, hone]
  simp

/-- Witness for C8 at a concrete input. -/
theorem claim_C8_witness :
    ([("K", [10])].map (Prod.fst)).Nodup
    ∧ findModulePath [("K", [10])] 10 = some "K"
    ∧ lookupModule [("K", [10])] "K" = some [10]
    ∧ [(10 : Int)].length ≤ 1
    ∧ switch_windows ⟨some ("K", 10, 0, [10]), true⟩ [("K", [10])] 10 false
        = (false, ⟨some ("K", 10, 0, [10]), true⟩, []) :=
  ⟨by decide, by decide, by decide, by decide,
   claim_C8 ⟨some ("K", 10, 0, [10]), true⟩ [("K", [10])] 10 false "K" [10]
     (by decide) (by decide) (by decide) (by decide)⟩

/-- C9: if window enumeration fails, both `switch_windows` and
`switch_apps` abort with the switching state unchanged and no effect issued
(for `switch_apps`, enumeration is only performed when no cycle is active,
i.e. when the state is `none`). -/
theorem claim_C9 (st : SwitchWindowsState) (hwnd : Int) (reverse : Bool)
    (getIcon : String → Int → Nat) (iconic : Int → Bool) :
    switch_windows_msg st (.error ()) hwnd reverse = (.error (), st, [])
    ∧ switch_apps none (.error ()) getIcon iconic reverse
        = (.error (), none) :=
  ⟨rfl, rfl⟩

theorem advance_apps_apps (s : SwitchAppsState) (reverse : Bool) :
    (advance_apps s reverse).apps = s.apps := by
  unfold advance_apps
  split <;> split <;> rfl

theorem advance_apps_index (s : SwitchAppsState) (reverse : Bool)
    (h : s.index < s.apps.length) :
    (advance_apps s reverse).index
      = (s.index + (if reverse then s.apps.length - 1 else 1))
          % s.apps.length := by
  have hpos : 0 < s.apps.length := Nat.lt_of_le_of_lt (Nat.zero_le _) h
  cases reverse with
  | false =>
    by_cases hz : s.index = s.apps.length - 1
    · have hb : (s.index == s.apps.length - 1) = true := beq_iff_eq.mpr hz
      simp [advance_apps, hb, hz]
      rw [Nat.sub_add_cancel hpos, Nat.mod_self]
    · have hb : (s.index == s.apps.length - 1) = false := by
        simp [beq_eq_false_iff_ne, hz]
      simp [advance_apps, hb]
      rw [Nat.mod_eq_of_lt (by omega)]
  | true =>
    by_cases hz : s.index = 0
    · have hb : (s.index == 0) = true := beq_iff_eq.mpr hz
      simp [advance_apps, hb, hz]
    · have hb : (s.index == 0) = false := by
        simp [beq_eq_false_iff_ne, hz]
      simp [advance_apps, hb]
      have he : s.index + (s.apps.length - 1)
          = s.apps.length + (s.index - 1) := by omega
      rw [he, Nat.add_mod_left, Nat.mod_eq_of_lt (by omega)]

theorem advance_apps_index_lt (s : SwitchAppsState) (reverse : Bool)
    (hpos : 0 < s.apps.length) (h : s.index < s.apps.length) :
    (advance_apps s reverse).index < (advance_apps s reverse).apps.length := by
  rw [advance_apps_apps, advance_apps_index s reverse h]
  exact Nat.mod_lt _ hpos

theorem advance_apps_iter (s : SwitchAppsState) (reverse : Bool)
    (h : s.index < s.apps.length) :
    ∀ k : Nat,
      ((fun t => advance_apps t reverse)^[k] s).apps = s.apps
      ∧ ((fun t => advance_apps t reverse)^[k] s).index
          = (s.index + k * (if reverse then s.apps.length - 1 else 1))
              % s.apps.length := by
  have hpos : 0 < s.apps.length := Nat.lt_of_le_of_lt (Nat.zero_le _) h
  intro k
  induction k with
  | zero =>
    refine ⟨rfl, ?_⟩
    simp only [Function.iterate_zero, id_eq, Nat.zero_mul, Nat.add_zero]
    exact (Nat.mod_eq_of_lt h).symm
  | succ n ih =>
    rw [Function.iterate_succ_apply']
    set t := (fun t => advance_apps t reverse)^[n] s with ht
    have htidx : t.index < t.apps.length := by
      rw [ih.1, ih.2]
      exact Nat.mod_lt _ hpos
    refine ⟨by rw [advance_apps_apps, ih.1], ?_⟩
    rw [advance_apps_index t reverse htidx, ih.1, ih.2]
    rw [Nat.mod_add_mod]
    congr 1
    ring

theorem advance_apps_foldl (revs : List Bool) :
    ∀ s : SwitchAppsState, s.index < s.apps.length →
      (revs.foldl advance_apps s).index < s.apps.length
      ∧ (revs.foldl advance_apps s).apps = s.apps := by
  induction revs with
  | nil => exact fun s h => ⟨h, rfl⟩
  | cons r rs ih =>
    intro s h
    have hpos : 0 < s.apps.length := Nat.lt_of_le_of_lt (Nat.zero_le _) h
    have h1 := advance_apps_index_lt s r hpos h
    have happ := advance_apps_apps s r
    have hrest := ih (advance_apps s r) h1
    rw [List.foldl_cons]
    exact ⟨by rw [← happ]; exact hrest.1, by rw [hrest.2, happ]⟩

theorem switch_apps_state_eq {a b : SwitchAppsState} (h1 : a.apps = b.apps)
    (h2 : a.index = b.index) : a = b := by
  cases a; cases b
  simp only at h1 h2
  rw [h1, h2]

/-- C4: on an active `SwitchAppsState` with a non-empty candidate list, any
sequence of advances keeps the index in `[0, candidates.len())` (and never
changes the candidate list), and advancing `len` times in a single direction
returns the state (index included) to its original value. -/
theorem claim_C4 (s : SwitchAppsState) (hpos : 0 < s.apps.length)
    (h : s.index < s.apps.length) :
    (∀ revs : List Bool,
        (revs.foldl advance_apps s).index < s.apps.length
        ∧ (revs.foldl advance_apps s).apps = s.apps)
    ∧ ∀ reverse : Bool,
        (fun t => advance_apps t reverse)^[s.apps.length] s = s := by
  refine ⟨fun revs => advance_apps_foldl revs s h, fun reverse => ?_⟩
  have hiter := advance_apps_iter s reverse h s.apps.length
  refine switch_apps_state_eq hiter.1 ?_
  rw [hiter.2, Nat.add_mul_mod_self_left, Nat.mod_eq_of_lt h]

/-- Witness for C4 at a concrete three-candidate state. -/
theorem claim_C4_witness :
    ((0 : Nat) < 3 ∧ (1 : Nat) < 3)
    ∧ ((∀ revs : List Bool,
          (revs.foldl advance_apps ⟨[(0, 5), (0, 6), (0, 7)], 1⟩).index < 3
          ∧ (revs.foldl advance_apps ⟨[(0, 5), (0, 6), (0, 7)], 1⟩).apps
              = [(0, 5), (0, 6), (0, 7)])
        ∧ ∀ reverse : Bool,
            (fun t => advance_apps t reverse)^[3]
                (⟨[(0, 5), (0, 6), (0, 7)], 1⟩ : SwitchAppsState)
              = ⟨[(0, 5), (0, 6), (0, 7)], 1⟩) :=
  ⟨⟨by decide, by decide⟩,
   claim_C4 ⟨[(0, 5), (0, 6), (0, 7)], 1⟩ (by decide) (by decide)⟩

/-! ### The low-level keyboard hook (src/keyboard.rs) -/

/-- `SCANCODE_LSHIFT` (0x2A). -/
def SCANCODE_LSHIFT : Nat := 42

/-- `SCANCODE_RSHIFT` (0x36). -/
def SCANCODE_RSHIFT : Nat := 54

/-- Modelled from the spec: `SWITCH_APPS_HOTKEY_ID` is a constant hotkey
identifier from the configuration module (config.rs, not under src/);
only its being distinct from the windows id matters. -/
def SWITCH_APPS_HOTKEY_ID : Nat := 0

/-- Modelled from the spec: `SWITCH_WINDOWS_HOTKEY_ID`, the other hotkey
identifier from the configuration module (config.rs, not under src/). -/
def SWITCH_WINDOWS_HOTKEY_ID : Nat := 1

/-- Modelled from the spec: the `Hotkey` struct of the configuration module
(config.rs, not under src/) as used by keyboard.rs — an identifier, the
modifier scan-codes, and the trigger scan-code. -/
structure Hotkey where
  id : Nat
  modifier : List Nat
  code : Nat
deriving DecidableEq, Repr

/-- The `HotKeyState` struct of src/keyboard.rs. -/
structure HotKeyState where
  hotkey : Hotkey
  is_modifier_pressed : Bool
deriving DecidableEq, Repr

/-- The global mutable hook state of src/keyboard.rs: `KEYBOARD_STATE`,
`IS_SHIFT_PRESSED` and `PREVIOUS_KEYCODE`. -/
structure KbState where
  states : List HotKeyState
  isShiftPressed : Bool
  previousKeycode : Nat
deriving DecidableEq, Repr

/-- The messages `keyboard_proc` posts to the coordinator window
(`WM_USER_SWITCH_*`). -/
inductive KbMsg where
  | switchApps (reverse : Bool)
  | switchAppsDone
  | switchAppsCancel
  | switchWindows (reverse : Bool)
  | switchWindowsDone
deriving DecidableEq, Repr

/-- One key event as seen by the hook: scan code, pressed/released
(from `flags & LLKHF_UP`), and the current value of
`IS_FOREGROUND_IN_BLACKLIST`. -/
structure KbEvent where
  scan : Nat
  pressed : Bool
  blacklist : Bool
deriving DecidableEq, Repr

/-- The `*_DONE` message sent on a modifier release when the last trigger
scan-code recorded equals this hotkey's trigger code
(src/keyboard.rs lines 107-116). -/
def doneMsgs (prev : Nat) (hk : Hotkey) : List KbMsg :=
  if prev == hk.code then
    if hk.id == SWITCH_APPS_HOTKEY_ID then [KbMsg.switchAppsDone]
    else if hk.id == SWITCH_WINDOWS_HOTKEY_ID then [KbMsg.switchWindowsDone]
    else []
  else []

/-- One iteration of the modifier loop of `keyboard_proc` (src/keyboard.rs
lines 100-119) for a single `HotKeyState`: returns the updated state, the
`*_DONE` messages sent, and whether the scan code is this hotkey's
modifier. -/
def stepModifier (prev : Nat) (pressed : Bool) (scan : Nat)
    (st : HotKeyState) : HotKeyState × List KbMsg × Bool :=
  if st.hotkey.modifier.contains scan then
    if pressed then ({ st with is_modifier_pressed := true }, [], true)
    else ({ st with is_modifier_pressed := false }, doneMsgs prev st.hotkey,
      true)
  else (st, [], false)

/-- The whole modifier loop of `keyboard_proc` over all hotkey states
(no early exit; `is_modifier` is the disjunction over all states). -/
def modifierLoop (prev : Nat) (pressed : Bool) (scan : Nat) :
    List HotKeyState → List HotKeyState × List KbMsg × Bool
  | [] => ([], [], false)
  | st :: rest =>
    let r1 := stepModifier prev pressed scan st
    let r2 := modifierLoop prev pressed scan rest
    (r1.1 :: r2.1, r1.2.1 ++ r2.2.1, r1.2.2 || r2.2.2)

/-- The trigger loop of `keyboard_proc` (src/keyboard.rs lines 120-154):
first state that matches wins; returns the message sent together with the
value stored into `PREVIOUS_KEYCODE`, or `none` when no state consumes the
event. -/
def triggerLoop (pressed : Bool) (scan : Nat) (shift : Bool)
    (blacklist : Bool) : List HotKeyState → Option (KbMsg × Nat)
  | [] => none
  | st :: rest =>
    if pressed && st.is_modifier_pressed then
      if scan == st.hotkey.code then
        if st.hotkey.id == SWITCH_APPS_HOTKEY_ID then
          some (KbMsg.switchApps shift, scan)
        else if st.hotkey.id == SWITCH_WINDOWS_HOTKEY_ID && !blacklist then
          some (KbMsg.switchWindows shift, scan)
        else triggerLoop pressed scan shift blacklist rest
      else if scan == 1 && st.hotkey.id == SWITCH_APPS_HOTKEY_ID then
        some (KbMsg.switchAppsCancel, scan)
      else triggerLoop pressed scan shift blacklist rest
    else triggerLoop pressed scan shift blacklist rest

/-- `keyboard_proc` (src/keyboard.rs lines 89-157): returns the new global
hook state, the messages sent, and whether the event was consumed
(`LRESULT(1)`) rather than forwarded (`CallNextHookEx`). -/
def keyboard_proc (kb : KbState) (e : KbEvent) :
    KbState × List KbMsg × Bool :=
  let shift :=
    if e.scan == SCANCODE_LSHIFT || e.scan == SCANCODE_RSHIFT then e.pressed
    else kb.isShiftPressed
  let r := modifierLoop kb.previousKeycode e.pressed e.scan kb.states
  if r.2.2 then
    ({ states := r.1, isShiftPressed := shift,
       previousKeycode := kb.previousKeycode }, r.2.1, false)
  else
    match triggerLoop e.pressed e.scan shift e.blacklist r.1 with
    | some mp =>
      ({ states := r.1, isShiftPressed := shift, previousKeycode := mp.2 },
       r.2.1 ++ [mp.1], true)
    | none =>
      ({ states := r.1, isShiftPressed := shift,
         previousKeycode := kb.previousKeycode }, r.2.1, false)

/-- Running the hook over a sequence of key events, accumulating the
messages sent. -/
def runEvents (kb : KbState) : List KbEvent → KbState × List KbMsg
  | [] => (kb, [])
  | e :: es =>
    let r := keyboard_proc kb e
    let rest := runEvents r.1 es
    (rest.1, r.2.1 ++ rest.2)

/-- The matching predicate of claim C3: a hotkey's trigger scan-code pressed
while that hotkey's modifier is held, or the cancel scan-code 0x01 pressed
while the apps hotkey's modifier is held. -/
def matchesCombo (states : List HotKeyState) (scan : Nat) (pressed : Bool) :
    Bool :=
  pressed && states.any (fun st =>
    st.is_modifier_pressed
    && (scan == st.hotkey.code
        || (scan == 1 && st.hotkey.id == SWITCH_APPS_HOTKEY_ID)))

theorem stepModifier_not_modifier {prev : Nat} {pressed : Bool} {scan : Nat}
    {st : HotKeyState} (h : (stepModifier prev pressed scan st).2.2 = false) :
    (stepModifier prev pressed scan st).1 = st := by
  unfold stepModifier at h ⊢
  by_cases hc : st.hotkey.modifier.contains scan = true
  · rw [if_pos hc] at h
    exfalso
    cases pressed <;> simp at h
  · rw [if_neg hc]

theorem modifierLoop_not_modifier {prev : Nat} {pressed : Bool} {scan : Nat} :
    ∀ {states : List HotKeyState},
      (modifierLoop prev pressed scan states).2.2 = false →
      (modifierLoop prev pressed scan states).1 = states := by
  intro states
  induction states with
  | nil => intro _; rfl
  | cons st rest ih =>
    intro h
    unfold modifierLoop at h ⊢
    simp only [Bool.or_eq_false_iff] at h
    simp only [List.cons.injEq]
    exact ⟨stepModifier_not_modifier h.1, ih h.2⟩

theorem triggerLoop_some_match {pressed : Bool} {scan : Nat} {shift : Bool}
    {blacklist : Bool} :
    ∀ {states : List HotKeyState} {mp : KbMsg × Nat},
      triggerLoop pressed scan shift blacklist states = some mp →
      pressed = true
      ∧ states.any (fun st =>
          st.is_modifier_pressed
          && (scan == st.hotkey.code
              || (scan == 1 && st.hotkey.id == SWITCH_APPS_HOTKEY_ID)))
        = true := by
  intro states
  induction states with
  | nil => intro mp h; cases h
  | cons st rest ih =>
    intro mp h
    unfold triggerLoop at h
    by_cases hpm : (pressed && st.is_modifier_pressed) = true
    · have hpm' := hpm
      rw [Bool.and_eq_true] at hpm'
      rw [if_pos hpm] at h
      refine ⟨hpm'.1, ?_⟩
      by_cases hcode : (scan == st.hotkey.code) = true
      · simp [List.any_cons, hpm'.2, hcode]
      · rw [if_neg hcode] at h
        by_cases hcancel :
            (scan == 1 && st.hotkey.id == SWITCH_APPS_HOTKEY_ID) = true
        · simp [List.any_cons, hpm'.2, hcancel]
        · rw [if_neg hcancel] at h
          simp [List.any_cons, (ih h).2]
    · rw [if_neg hpm] at h
      exact ⟨(ih h).1, by simp [List.any_cons, (ih h).2]⟩

/-- C3: the hook consumes a key event only when it matches a configured
hotkey combination (a hotkey's trigger scan-code, or the cancel scan-code
0x01 for the apps hotkey, pressed while that hotkey's modifier is held);
equivalently, every non-matching event is forwarded to the rest of the
input pipeline (`CallNextHookEx`). -/
theorem claim_C3 (kb : KbState) (e : KbEvent)
    (h : (keyboard_proc kb e).2.2 = true) :
    matchesCombo kb.states e.scan e.pressed = true := by
  simp only [keyboard_proc] at h
  split at h
  · simp at h
  · next hm =>
    have hm' : (modifierLoop kb.previousKeycode e.pressed e.scan
        kb.states).2.2 = false := (Bool.not_eq_true _) ▸ hm
    split at h
    · next mp htrig =>
      rw [modifierLoop_not_modifier hm'] at htrig
      have h2 := triggerLoop_some_match htrig
      unfold matchesCombo
      rw [h2.1, Bool.true_and]
      exact h2.2
    · simp at h

/-- Witness for C3: a consumed event (apps trigger pressed with the
modifier held) does match the configured combination. -/
theorem claim_C3_witness :
    (keyboard_proc
        ⟨[⟨⟨SWITCH_APPS_HOTKEY_ID, [56], 15⟩, true⟩], false, 0⟩
        ⟨15, true, false⟩).2.2 = true
    ∧ matchesCombo [⟨⟨SWITCH_APPS_HOTKEY_ID, [56], 15⟩, true⟩] 15 true
        = true :=
  ⟨by decide,
   claim_C3 ⟨[⟨⟨SWITCH_APPS_HOTKEY_ID, [56], 15⟩, true⟩], false, 0⟩
     ⟨15, true, false⟩ (by decide)⟩

theorem stepModifier_hotkey (prev : Nat) (pressed : Bool) (scan : Nat)
    (st : HotKeyState) :
    (stepModifier prev pressed scan st).1.hotkey = st.hotkey := by
  unfold stepModifier
  by_cases hc : st.hotkey.modifier.contains scan = true
  · rw [if_pos hc]
    cases pressed <;> simp
  · rw [if_neg hc]

theorem modifierLoop_hotkeys (prev : Nat) (pressed : Bool) (scan : Nat)
    (states : List HotKeyState) :
    (modifierLoop prev pressed scan states).1.map (fun st => st.hotkey)
      = states.map (fun st => st.hotkey) := by
  induction states with
  | nil => rfl
  | cons st rest ih =>
    unfold modifierLoop
    simp only [List.map_cons, stepModifier_hotkey, ih]

theorem keyboard_proc_hotkeys (kb : KbState) (e : KbEvent) :
    (keyboard_proc kb e).1.states.map (fun st => st.hotkey)
      = kb.states.map (fun st => st.hotkey) := by
  simp only [keyboard_proc]
  split
  · exact modifierLoop_hotkeys _ _ _ _
  · split
    · exact modifierLoop_hotkeys _ _ _ _
    · exact modifierLoop_hotkeys _ _ _ _

theorem doneMsgs_done {prev : Nat} {hk : Hotkey} {m : KbMsg}
    (hm : m ∈ doneMsgs prev hk) :
    m = KbMsg.switchAppsDone ∨ m = KbMsg.switchWindowsDone := by
  unfold doneMsgs at hm
  by_cases hp : (prev == hk.code) = true
  · rw [if_pos hp] at hm
    by_cases ha : (hk.id == SWITCH_APPS_HOTKEY_ID) = true
    · rw [if_pos ha] at hm
      exact Or.inl (List.mem_singleton.mp hm)
    · rw [if_neg ha] at hm
      by_cases hw : (hk.id == SWITCH_WINDOWS_HOTKEY_ID) = true
      · rw [if_pos hw] at hm
        exact Or.inr (List.mem_singleton.mp hm)
      · rw [if_neg hw] at hm
        cases hm
  · rw [if_neg hp] at hm
    cases hm

theorem doneMsgs_nil {hk : Hotkey} (hcode : hk.code ≠ 1) :
    doneMsgs 1 hk = [] := by
  unfold doneMsgs
  have hp : ((1 : Nat) == hk.code) = false :=
    beq_eq_false_iff_ne.mpr (Ne.symm hcode)
  rw [if_neg (by simp [hp])]

theorem stepModifier_msgs_done {prev : Nat} {pressed : Bool} {scan : Nat}
    {st : HotKeyState} {m : KbMsg}
    (hm : m ∈ (stepModifier prev pressed scan st).2.1) :
    m = KbMsg.switchAppsDone ∨ m = KbMsg.switchWindowsDone := by
  unfold stepModifier at hm
  by_cases hc : st.hotkey.modifier.contains scan = true
  · rw [if_pos hc] at hm
    cases pressed with
    | false =>
      rw [if_neg (show ¬(false = true) by simp)] at hm
      exact doneMsgs_done hm
    | true => simp at hm
  · rw [if_neg hc] at hm
    cases hm

theorem modifierLoop_msgs_done {prev : Nat} {pressed : Bool} {scan : Nat}
    {states : List HotKeyState} {m : KbMsg}
    (hm : m ∈ (modifierLoop prev pressed scan states).2.1) :
    m = KbMsg.switchAppsDone ∨ m = KbMsg.switchWindowsDone := by
  induction states with
  | nil => cases hm
  | cons st rest ih =>
    unfold modifierLoop at hm
    rcases List.mem_append.mp hm with h | h
    · exact stepModifier_msgs_done h
    · exact ih h

theorem stepModifier_msgs_nil {pressed : Bool} {scan : Nat}
    {st : HotKeyState} (hcode : st.hotkey.code ≠ 1) :
    (stepModifier 1 pressed scan st).2.1 = [] := by
  unfold stepModifier
  by_cases hc : st.hotkey.modifier.contains scan = true
  · rw [if_pos hc]
    cases pressed with
    | false =>
      rw [if_neg (show ¬(false = true) by simp)]
      exact doneMsgs_nil hcode
    | true => simp
  · rw [if_neg hc]

theorem modifierLoop_msgs_nil {pressed : Bool} {scan : Nat}
    {states : List HotKeyState}
    (hcodes : ∀ st ∈ states, st.hotkey.code ≠ 1) :
    (modifierLoop 1 pressed scan states).2.1 = [] := by
  induction states with
  | nil => rfl
  | cons st rest ih =>
    show (stepModifier 1 pressed scan st).2.1
        ++ (modifierLoop 1 pressed scan rest).2.1 = []
    rw [stepModifier_msgs_nil (hcodes st (List.mem_cons_self st rest)),
      List.nil_append]
    exact ih (fun s hs => hcodes s (List.mem_cons_of_mem st hs))

theorem triggerLoop_kinds {pressed : Bool} {scan : Nat} {shift : Bool}
    {blacklist : Bool} :
    ∀ {states : List HotKeyState} {mp : KbMsg × Nat},
      triggerLoop pressed scan shift blacklist states = some mp →
      mp.1 = KbMsg.switchApps shift ∨ mp.1 = KbMsg.switchWindows shift
      ∨ (mp.1 = KbMsg.switchAppsCancel ∧ mp.2 = 1) := by
  intro states
  induction states with
  | nil => intro mp h; cases h
  | cons st rest ih =>
    intro mp h
    unfold triggerLoop at h
    by_cases hpm : (pressed && st.is_modifier_pressed) = true
    · rw [if_pos hpm] at h
      by_cases hcode : (scan == st.hotkey.code) = true
      · rw [if_pos hcode] at h
        by_cases ha : (st.hotkey.id == SWITCH_APPS_HOTKEY_ID) = true
        · rw [if_pos ha] at h
          exact Or.inl (by rw [← Option.some.inj h])
        · rw [if_neg ha] at h
          by_cases hw :
              (st.hotkey.id == SWITCH_WINDOWS_HOTKEY_ID && !blacklist) = true
          · rw [if_pos hw] at h
            exact Or.inr (Or.inl (by rw [← Option.some.inj h]))
          · rw [if_neg hw] at h
            exact ih h
      · rw [if_neg hcode] at h
        by_cases hcancel :
            (scan == 1 && st.hotkey.id == SWITCH_APPS_HOTKEY_ID) = true
        · rw [if_pos hcancel] at h
          have h1 : scan = 1 := by
            rw [Bool.and_eq_true] at hcancel
            exact eq_of_beq hcancel.1
          refine Or.inr (Or.inr ⟨by rw [← Option.some.inj h], ?_⟩)
          rw [← Option.some.inj h]
          exact h1
        · rw [if_neg hcancel] at h
          exact ih h
    · rw [if_neg hpm] at h
      exact ih h

theorem keyboard_proc_codes {kb : KbState} {e : KbEvent}
    (hcodes : ∀ st ∈ kb.states, st.hotkey.code ≠ 1) :
    ∀ st' ∈ (keyboard_proc kb e).1.states, st'.hotkey.code ≠ 1 := by
  intro st' hst'
  have hmap := keyboard_proc_hotkeys kb e
  have hmem : st'.hotkey
      ∈ (keyboard_proc kb e).1.states.map (fun st => st.hotkey) :=
    List.mem_map_of_mem _ hst'
  rw [hmap] at hmem
  rcases List.mem_map.mp hmem with ⟨st0, hst0, heq⟩
  rw [← heq]
  exact hcodes st0 hst0

theorem keyboard_proc_cancel_prev {kb : KbState} {e : KbEvent}
    (h : KbMsg.switchAppsCancel ∈ (keyboard_proc kb e).2.1) :
    (keyboard_proc kb e).1.previousKeycode = 1 := by
  simp only [keyboard_proc] at h ⊢
  split at h
  · rcases modifierLoop_msgs_done h with h1 | h1 <;> cases h1
  · next hm =>
    rw [if_neg hm]
    rcases htrig : triggerLoop e.pressed e.scan
        (if (e.scan == SCANCODE_LSHIFT || e.scan == SCANCODE_RSHIFT) = true
         then e.pressed else kb.isShiftPressed) e.blacklist
        (modifierLoop kb.previousKeycode e.pressed e.scan kb.states).1
        with _ | mp
    · rw [htrig] at h
      rcases modifierLoop_msgs_done h with h1 | h1 <;> cases h1
    · rw [htrig] at h
      rcases List.mem_append.mp h with h1 | h1
      · rcases modifierLoop_msgs_done h1 with h2 | h2 <;> cases h2
      · have hcancel : mp.1 = KbMsg.switchAppsCancel :=
          (List.mem_singleton.mp h1).symm
        rcases triggerLoop_kinds htrig with hk | hk | hk
        · rw [hk] at hcancel; cases hcancel
        · rw [hk] at hcancel; cases hcancel
        · exact hk.2

theorem keyboard_proc_step_one {kb : KbState} {e : KbEvent}
    (hprev : kb.previousKeycode = 1)
    (hcodes : ∀ st ∈ kb.states, st.hotkey.code ≠ 1) :
    ((keyboard_proc kb e).1.previousKeycode = 1
      ∨ (∃ r, KbMsg.switchApps r ∈ (keyboard_proc kb e).2.1)
      ∨ (∃ r, KbMsg.switchWindows r ∈ (keyboard_proc kb e).2.1))
    ∧ KbMsg.switchAppsDone ∉ (keyboard_proc kb e).2.1 := by
  have hmod : (modifierLoop kb.previousKeycode e.pressed e.scan
      kb.states).2.1 = [] := by
    rw [hprev]
    exact modifierLoop_msgs_nil hcodes
  simp only [keyboard_proc]
  split
  · rw [hmod]
    exact ⟨Or.inl hprev, by simp⟩
  · next hm =>
    rcases htrig : triggerLoop e.pressed e.scan
        (if (e.scan == SCANCODE_LSHIFT || e.scan == SCANCODE_RSHIFT) = true
         then e.pressed else kb.isShiftPressed) e.blacklist
        (modifierLoop kb.previousKeycode e.pressed e.scan kb.states).1
        with _ | mp
    · rw [hmod]
      exact ⟨Or.inl hprev, by simp⟩
    · dsimp only
      rw [hmod, List.nil_append]
      rcases triggerLoop_kinds htrig with hk | hk | hk
      · refine ⟨Or.inr (Or.inl
          ⟨(if (e.scan == SCANCODE_LSHIFT || e.scan == SCANCODE_RSHIFT) = true
            then e.pressed else kb.isShiftPressed), ?_⟩), ?_⟩
        · rw [← hk]
          exact List.mem_singleton_self mp.1
        · intro hmem
          rw [List.mem_singleton] at hmem
          rw [hk] at hmem
          cases hmem
      · refine ⟨Or.inr (Or.inr
          ⟨(if (e.scan == SCANCODE_LSHIFT || e.scan == SCANCODE_RSHIFT) = true
            then e.pressed else kb.isShiftPressed), ?_⟩), ?_⟩
        · rw [← hk]
          exact List.mem_singleton_self mp.1
        · intro hmem
          rw [List.mem_singleton] at hmem
          rw [hk] at hmem
          cases hmem
      · refine ⟨Or.inl hk.2, ?_⟩
        intro hmem
        rw [List.mem_singleton] at hmem
        rw [hk.1] at hmem
        cases hmem

theorem runEvents_no_done :
    ∀ (es : List KbEvent) (kb : KbState), kb.previousKeycode = 1 →
      (∀ st ∈ kb.states, st.hotkey.code ≠ 1) →
      (∀ r, KbMsg.switchApps r ∉ (runEvents kb es).2
        ∧ KbMsg.switchWindows r ∉ (runEvents kb es).2) →
      KbMsg.switchAppsDone ∉ (runEvents kb es).2 := by
  intro es
  induction es with
  | nil =>
    intro kb _ _ _
    simp [runEvents]
  | cons e es ih =>
    intro kb hprev hcodes hno
    have hrw : (runEvents kb (e :: es)).2
        = (keyboard_proc kb e).2.1
          ++ (runEvents (keyboard_proc kb e).1 es).2 := rfl
    rw [hrw] at hno ⊢
    have hstep := @keyboard_proc_step_one kb e hprev hcodes
    have hprev' : (keyboard_proc kb e).1.previousKeycode = 1 := by
      rcases hstep.1 with h1 | ⟨r, hr⟩ | ⟨r, hr⟩
      · exact h1
      · exact absurd (List.mem_append.mpr (Or.inl hr)) (hno r).1
      · exact absurd (List.mem_append.mpr (Or.inl hr)) (hno r).2
    have hcodes' := @keyboard_proc_codes kb e hcodes
    have hno' : ∀ r,
        KbMsg.switchApps r ∉ (runEvents (keyboard_proc kb e).1 es).2
        ∧ KbMsg.switchWindows r ∉ (runEvents (keyboard_proc kb e).1 es).2 :=
      fun r =>
        ⟨fun hm => (hno r).1 (List.mem_append.mpr (Or.inr hm)),
         fun hm => (hno r).2 (List.mem_append.mpr (Or.inr hm))⟩
    intro hmem
    rcases List.mem_append.mp hmem with h1 | h1
    · exact hstep.2 h1
    · exact ih _ hprev' hcodes' hno' h1

/-- C10: once the hook consumes the cancel scan-code (emitting
`WM_USER_SWITCH_APPS_CANCEL`), `PREVIOUS_KEYCODE` holds 0x01, which equals
no configured hotkey's trigger code; hence no subsequent event — in
particular the release of the apps modifier — emits a commit
(`*_DONE`) message until some event is again consumed as a trigger press
(emitting a `WM_USER_SWITCH_APPS`/`WM_USER_SWITCH_WINDOWS` message). -/
theorem claim_C10 (kb : KbState) (e : KbEvent) (es : List KbEvent)
    (hcodes : ∀ st ∈ kb.states, st.hotkey.code ≠ 1)
    (hcancel : KbMsg.switchAppsCancel ∈ (keyboard_proc kb e).2.1)
    (hno : ∀ r,
        KbMsg.switchApps r ∉ (runEvents (keyboard_proc kb e).1 es).2
        ∧ KbMsg.switchWindows r ∉ (runEvents (keyboard_proc kb e).1 es).2) :
    KbMsg.switchAppsDone ∉ (runEvents (keyboard_proc kb e).1 es).2 :=
  runEvents_no_done es _ (keyboard_proc_cancel_prev hcancel)
    (keyboard_proc_codes hcodes) hno

/-- Witness for C10: apps hotkey (id 0, modifier 0x38, trigger 0x0F) with
the modifier held; pressing escape (0x01) emits the cancel, and the
following modifier release emits no commit. -/
theorem claim_C10_witness :
    (∀ st ∈ [(⟨⟨SWITCH_APPS_HOTKEY_ID, [56], 15⟩, true⟩ : HotKeyState)],
        st.hotkey.code ≠ 1)
    ∧ KbMsg.switchAppsCancel
        ∈ (keyboard_proc ⟨[⟨⟨SWITCH_APPS_HOTKEY_ID, [56], 15⟩, true⟩],
            false, 15⟩ ⟨1, true, false⟩).2.1
    ∧ (∀ r, KbMsg.switchApps r
          ∉ (runEvents (keyboard_proc ⟨[⟨⟨SWITCH_APPS_HOTKEY_ID, [56], 15⟩,
              true⟩], false, 15⟩ ⟨1, true, false⟩).1
              [⟨56, false, false⟩]).2
        ∧ KbMsg.switchWindows r
          ∉ (runEvents (keyboard_proc ⟨[⟨⟨SWITCH_APPS_HOTKEY_ID, [56], 15⟩,
              true⟩], false, 15⟩ ⟨1, true, false⟩).1
              [⟨56, false, false⟩]).2)
    ∧ KbMsg.switchAppsDone
        ∉ (runEvents (keyboard_proc ⟨[⟨⟨SWITCH_APPS_HOTKEY_ID, [56], 15⟩,
            true⟩], false, 15⟩ ⟨1, true, false⟩).1
            [⟨56, false, false⟩]).2 :=
  ⟨by decide, by decide, by decide,
   claim_C10 ⟨[⟨⟨SWITCH_APPS_HOTKEY_ID, [56], 15⟩, true⟩], false, 15⟩
     ⟨1, true, false⟩ [⟨56, false, false⟩]
     (by decide) (by decide) (by decide)⟩

theorem contains_iff_mem {l : List Int} {x : Int} :
    l.contains x = true ↔ x ∈ l := List.elem_iff

theorem setDropLast_spec {l : List Int} {i : Nat} (hnd : l.Nodup)
    (hilt : i < l.length) (hpos : 0 < l.length) :
    ((l.set i (l[l.length - 1])).dropLast).Nodup
    ∧ ∀ x, x ∈ (l.set i (l[l.length - 1])).dropLast
        ↔ (x ∈ l ∧ x ≠ l[i]) := by
  set X := (l.set i (l[l.length - 1])).dropLast with hX
  have hXlen : X.length = l.length - 1 := by
    rw [hX, List.length_dropLast, List.length_set]
  have hget : ∀ (j : Nat) (hj : j < X.length) (hj2 : j < l.length),
      X[j] = if i = j then l[l.length - 1] else l[j] := by
    intro j hj hj2
    simp only [hX, List.getElem_dropLast, List.getElem_set]
  constructor
  · rw [List.nodup_iff_injective_get]
    intro ⟨j1, hj1⟩ ⟨j2, hj2⟩ heq
    simp only [List.get_eq_getElem] at heq
    rw [hget j1 hj1 (by omega), hget j2 hj2 (by omega)] at heq
    have hj1' : j1 < l.length - 1 := by rw [hXlen] at hj1; omega
    have hj2' : j2 < l.length - 1 := by rw [hXlen] at hj2; omega
    apply Fin.ext
    show j1 = j2
    split_ifs at heq
    all_goals first
      | omega
      | (have h12 := hnd.getElem_inj_iff.mp heq
         omega)
  · intro x
    constructor
    · intro hx
      rcases List.mem_iff_getElem.mp hx with ⟨j, hj, hxj⟩
      have hj' : j < l.length - 1 := by rw [hXlen] at hj; omega
      rw [hget j hj (by omega)] at hxj
      split_ifs at hxj with hij
      · rw [← hxj]
        refine ⟨List.getElem_mem _, fun hcon => ?_⟩
        have := hnd.getElem_inj_iff.mp hcon
        omega
      · rw [← hxj]
        refine ⟨List.getElem_mem _, fun hcon => ?_⟩
        have := hnd.getElem_inj_iff.mp hcon
        omega
    · rintro ⟨hxl, hxa⟩
      rcases List.mem_iff_getElem.mp hxl with ⟨k, hk, hxk⟩
      have hki : k ≠ i := by
        intro he
        subst he
        exact hxa hxk.symm
      rw [List.mem_iff_getElem]
      by_cases hkl : k < l.length - 1
      · refine ⟨k, by omega, ?_⟩
        rw [hget k (by omega) (by omega), if_neg (fun he => hki he.symm)]
        exact hxk
      · have hke : k = l.length - 1 := by omega
        have hil : i < l.length - 1 := by omega
        subst hke
        refine ⟨i, by omega, ?_⟩
        rw [hget i (by omega) (by omega), if_pos rfl]
        exact hxk

theorem swapRemove_spec {l : List Int} {a : Int} (hnd : l.Nodup)
    (ha : a ∈ l) :
    (swapRemove l a).length = l.length - 1
    ∧ (swapRemove l a).Nodup
    ∧ ∀ x, x ∈ swapRemove l a ↔ (x ∈ l ∧ x ≠ a) := by
  rcases hfi : l.findIdx? (fun y => y == a) with _ | i
  · exfalso
    rw [List.findIdx?_eq_none_iff] at hfi
    have := hfi a ha
    simp at this
  · rcases List.findIdx?_eq_some_iff_getElem.mp hfi with ⟨hilt, hpi, _⟩
    have hla : l[i] = a := by simpa using hpi
    have hpos : 0 < l.length := List.length_pos_of_mem ha
    have hlast : l.getLast? = some (l[l.length - 1]) := by
      rw [List.getLast?_eq_getElem?]
      exact List.getElem?_eq_getElem (by omega)
    have hsw : swapRemove l a
        = (l.set i (l[l.length - 1])).dropLast := by
      unfold swapRemove
      rw [hfi, hlast]
    have hspec := setDropLast_spec hnd hilt hpos
    refine ⟨?_, ?_, ?_⟩
    · rw [hsw, List.length_dropLast, List.length_set]
    · rw [hsw]
      exact hspec.1
    · intro x
      rw [hsw, hspec.2 x, hla]

theorem reconstruct_spec :
    ∀ (cws s : List Int), cws.Nodup → s.Nodup →
      (reconstruct cws s).1 = cws.filter (fun id => s.contains id)
      ∧ (reconstruct cws s).2.Nodup
      ∧ (∀ x, x ∈ (reconstruct cws s).2 ↔ (x ∈ s ∧ x ∉ cws)) := by
  intro cws
  induction cws with
  | nil =>
    intro s _ hs
    exact ⟨rfl, hs, fun x => by simp [reconstruct]⟩
  | cons c cws ih =>
    intro s hc hs
    rw [List.nodup_cons] at hc
    by_cases hcs : s.contains c = true
    · have hcmem : c ∈ s := contains_iff_mem.mp hcs
      have hspec := swapRemove_spec hs hcmem
      have ihh := ih (swapRemove s c) hc.2 hspec.2.1
      have hstep : reconstruct (c :: cws) s
          = (c :: (reconstruct cws (swapRemove s c)).1,
             (reconstruct cws (swapRemove s c)).2) := by
        simp only [reconstruct]
        rw [if_pos hcs]
      have hfilter : cws.filter (fun id => (swapRemove s c).contains id)
          = cws.filter (fun id => s.contains id) := by
        refine List.filter_congr ?_
        intro x hx
        have hxc : x ≠ c := fun he => hc.1 (he ▸ hx)
        rw [Bool.eq_iff_iff, contains_iff_mem, contains_iff_mem,
          hspec.2.2 x]
        exact ⟨fun h => h.1, fun h => ⟨h, hxc⟩⟩
      refine ⟨?_, ?_, ?_⟩
      · rw [hstep]
        rw [List.filter_cons_of_pos hcs]
        rw [ihh.1, hfilter]
      · rw [hstep]
        exact ihh.2.1
      · intro x
        rw [hstep]
        rw [ihh.2.2 x, hspec.2.2 x, List.mem_cons]
        constructor
        · rintro ⟨⟨hxs, hxc⟩, hxcws⟩
          exact ⟨hxs, fun h => h.elim (fun he => hxc he) hxcws⟩
        · rintro ⟨hxs, hx⟩
          exact ⟨⟨hxs, fun he => hx (Or.inl he)⟩, fun hm => hx (Or.inr hm)⟩
    · have hcmem : c ∉ s := fun h => hcs (contains_iff_mem.mpr h)
      have ihh := ih s hc.2 hs
      have hstep : reconstruct (c :: cws) s = reconstruct cws s := by
        simp only [reconstruct]
        rw [if_neg hcs]
      refine ⟨?_, ?_, ?_⟩
      · rw [hstep, List.filter_cons_of_neg hcs, ihh.1]
      · rw [hstep]
        exact ihh.2.1
      · intro x
        rw [hstep, ihh.2.2 x, List.mem_cons]
        constructor
        · rintro ⟨hxs, hxcws⟩
          refine ⟨hxs, fun h => ?_⟩
          rcases h with he | hm
          · exact hcmem (he ▸ hxs)
          · exact hxcws hm
        · rintro ⟨hxs, hx⟩
          exact ⟨hxs, fun hm => hx (Or.inr hm)⟩

theorem dedupFirstAux_eq :
    ∀ (l seen : List Int), l.Nodup → (∀ x ∈ l, x ∉ seen) →
      dedupFirstAux seen l = l := by
  intro l
  induction l with
  | nil => intro seen _ _; rfl
  | cons x xs ih =>
    intro seen hnd hsub
    rw [List.nodup_cons] at hnd
    have hxseen : ¬seen.contains x = true := fun h =>
      hsub x (List.mem_cons_self x xs) (contains_iff_mem.mp h)
    show (if seen.contains x then dedupFirstAux seen xs
      else x :: dedupFirstAux (x :: seen) xs) = x :: xs
    rw [if_neg hxseen]
    congr 1
    refine ih (x :: seen) hnd.2 ?_
    intro y hy hymem
    rcases List.mem_cons.mp hymem with he | hm
    · exact hnd.1 (he ▸ hy)
    · exact hsub y (List.mem_cons_of_mem x hy) hm

theorem dedupFirst_eq_self {l : List Int} (h : l.Nodup) : dedupFirst l = l :=
  dedupFirstAux_eq l [] h (fun x _ => List.not_mem_nil x)

/-- Symbolic evaluation of `switch_windows` on the continuation branch
(`n > 2`, matching cache, `modifier_released = false`). -/
theorem switch_windows_cont (st : SwitchWindowsState) (wins : WinList)
    (hwnd : Int) (reverse : Bool) (mp : String) (g : List Int) (cid : Int)
    (ci : Nat) (cws : List Int)
    (hf : findModulePath wins hwnd = some mp)
    (hl : lookupModule wins mp = some g)
    (hg2 : 2 < g.length)
    (hcache : st.cache = some (mp, cid, ci, cws))
    (hmr : st.modifier_released = false) :
    switch_windows st wins hwnd reverse
      = (true,
         { cache := some (mp, cid,
             (if reverse then
                if (ci == 0) = true then g.length - 1 else ci - 1
              else if ci ≥ g.length - 1 then 0 else ci + 1),
             (if ((reconstruct cws (dedupFirst g)).1
                  ++ (reconstruct cws (dedupFirst g)).2).isEmpty = true
              then g
              else (reconstruct cws (dedupFirst g)).1
                  ++ (reconstruct cws (dedupFirst g)).2)),
           modifier_released := false },
         [Effect.activate
           (((if ((reconstruct cws (dedupFirst g)).1
                  ++ (reconstruct cws (dedupFirst g)).2).isEmpty = true
              then g
              else (reconstruct cws (dedupFirst g)).1
                  ++ (reconstruct cws (dedupFirst g)).2).get?
              (if reverse then
                if (ci == 0) = true then g.length - 1 else ci - 1
              else if ci ≥ g.length - 1 then 0 else ci + 1)).getD
             ((if ((reconstruct cws (dedupFirst g)).1
                  ++ (reconstruct cws (dedupFirst g)).2).isEmpty = true
              then g
              else (reconstruct cws (dedupFirst g)).1
                  ++ (reconstruct cws (dedupFirst g)).2).headD 0))]) := by
  have hlen1 : (g.length == 1) = false := beq_eq_false_iff_ne.mpr (by omega)
  have hmpeq : (mp == mp) = true := beq_self_eq_true mp
  simp only [switch_windows, hf, hl, hcache, hmr, hlen1, hmpeq,
    Bool.false_eq_true, if_false, if_true, if_pos hg2]

/-- Modelled from the spec (claim C1's wording): reconstruct the working
order by keeping the cached ids still present in `W` in their cached
relative order, then appending the ids of `W` absent from the cache in
enumerator order. -/
def specReorderC1 (cws W : List Int) : List Int :=
  cws.filter (fun id => W.contains id)
    ++ W.filter (fun id => !(cws.contains id))

/-- Modelled from the spec (claim C1's wording): advance the cached index by
+1 (or −1 if reverse) wrapping modulo the new list length. -/
def specAdvanceC1 (ci n : Nat) (reverse : Bool) : Nat :=
  if reverse then (ci + n - 1) % n else (ci + 1) % n

/-- Modelled from the spec (claim C1's wording): the window the claim
predicts a continuation advance activates. -/
def specActivateC1 (st : SwitchWindowsState) (W : List Int)
    (reverse : Bool) : Option Int :=
  match st.cache with
  | some (_, _, ci, cws) =>
    let sw := specReorderC1 cws W
    sw.get? (specAdvanceC1 ci sw.length reverse)
  | none => none

/-- Counterexample to C1 as stated.  Two concrete advances where the code
diverges from the claim's reconstruction rule: (a) with n = 2 siblings and a
valid cache (`modifier_released = false`) the code ignores the cache and
activates window 20 where the claim predicts 10; (b) with n = 4 the
leftover ids are appended in the index-set swap-removal order, so the code
activates 40 where the claim (enumerator-order tail) predicts 30. -/
theorem claim_C1_counterexample :
    ((switch_windows ⟨some ("K", 10, 1, [10, 20]), false⟩
        [("K", [10, 20])] 10 false).2.2 = [Effect.activate 20]
      ∧ specActivateC1 ⟨some ("K", 10, 1, [10, 20]), false⟩ [10, 20] false
          = some 10)
    ∧ ((switch_windows ⟨some ("K", 10, 1, [10, 20]), false⟩
        [("K", [10, 30, 40, 20])] 10 false).2.2 = [Effect.activate 40]
      ∧ specActivateC1 ⟨some ("K", 10, 1, [10, 20]), false⟩
          [10, 30, 40, 20] false = some 30)
    ∧ (20 : Int) ≠ 10 ∧ (40 : Int) ≠ 30 := by
  refine ⟨⟨?_, ?_⟩, ⟨?_, ?_⟩, ?_, ?_⟩ <;> decide

/-- C1 (amended): the continuation rule applies only when the sibling list
has more than two windows (`n > 2`).  It keeps the cached ids still present
in `W` in their cached relative order and appends the remaining ids of `W`
(those absent from the cache) after them — but in the order produced by the
index-set swap-removals, not enumerator order — and, when the cached index
is within the new list length, advances it by +1 (or −1 if reverse) modulo
the new length, activating the window at the new index and storing the new
cache with `modifier_released = false`. -/
theorem claim_C1 (st : SwitchWindowsState) (wins : WinList) (hwnd : Int)
    (reverse : Bool) (mp : String) (g : List Int) (cid : Int) (ci : Nat)
    (cws : List Int)
    (hf : findModulePath wins hwnd = some mp)
    (hl : lookupModule wins mp = some g)
    (hgnd : g.Nodup) (hcnd : cws.Nodup)
    (hg2 : 2 < g.length)
    (hcache : st.cache = some (mp, cid, ci, cws))
    (hmr : st.modifier_released = false)
    (hci : ci < g.length) :
    ∃ rem t,
      (∀ x, x ∈ rem ↔ (x ∈ g ∧ x ∉ cws))
      ∧ (cws.filter (fun id => g.contains id) ++ rem).Perm g
      ∧ (cws.filter (fun id => g.contains id) ++ rem).get?
          (if reverse then (ci + g.length - 1) % g.length
           else (ci + 1) % g.length) = some t
      ∧ switch_windows st wins hwnd reverse
          = (true,
             { cache := some (mp, cid,
                 (if reverse then (ci + g.length - 1) % g.length
                  else (ci + 1) % g.length),
                 cws.filter (fun id => g.contains id) ++ rem),
               modifier_released := false },
             [Effect.activate t]) := by
  have hkey := switch_windows_cont st wins hwnd reverse mp g cid ci cws hf hl
    hg2 hcache hmr
  rw [dedupFirst_eq_self hgnd] at hkey
  have hrec := reconstruct_spec cws g hcnd hgnd
  have hpre : (reconstruct cws g).1 = cws.filter (fun id => g.contains id) :=
    hrec.1
  rw [hpre] at hkey
  set rem := (reconstruct cws g).2 with hremdef
  set fl := cws.filter (fun id => g.contains id) with hfldef
  have hmemrem : ∀ x, x ∈ rem ↔ (x ∈ g ∧ x ∉ cws) := hrec.2.2
  have hswmem : ∀ x, x ∈ fl ++ rem ↔ x ∈ g := by
    intro x
    rw [List.mem_append]
    constructor
    · rintro (hx | hx)
      · exact contains_iff_mem.mp (List.mem_filter.mp hx).2
      · exact ((hmemrem x).mp hx).1
    · intro hx
      by_cases hxc : x ∈ cws
      · exact Or.inl (List.mem_filter.mpr ⟨hxc, contains_iff_mem.mpr hx⟩)
      · exact Or.inr ((hmemrem x).mpr ⟨hx, hxc⟩)
  have hswnd : (fl ++ rem).Nodup := by
    refine List.Nodup.append (hcnd.filter _) hrec.2.1 ?_
    intro a ha hb
    exact ((hmemrem a).mp hb).2 (List.mem_filter.mp ha).1
  have hperm : (fl ++ rem).Perm g :=
    (List.perm_ext_iff_of_nodup hswnd hgnd).mpr hswmem
  have hswlen : (fl ++ rem).length = g.length := hperm.length_eq
  have hnonempty : ¬((fl ++ rem).isEmpty = true) := by
    intro h
    rw [List.isEmpty_iff] at h
    rw [h] at hswlen
    simp at hswlen
    omega
  rw [if_neg hnonempty] at hkey
  have hidx : (if reverse then
        if (ci == 0) = true then g.length - 1 else ci - 1
      else if ci ≥ g.length - 1 then 0 else ci + 1)
      = (if reverse then (ci + g.length - 1) % g.length
         else (ci + 1) % g.length) := by
    cases reverse with
    | false =>
      simp only [Bool.false_eq_true, if_false]
      by_cases h : ci ≥ g.length - 1
      · rw [if_pos h]
        have he : ci = g.length - 1 := by omega
        rw [he, Nat.sub_add_cancel (by omega), Nat.mod_self]
      · rw [if_neg h, Nat.mod_eq_of_lt (by omega)]
    | true =>
      simp only [if_true]
      by_cases h : ci = 0
      · have hb : (ci == 0) = true := beq_iff_eq.mpr h
        rw [if_pos hb, h]
        simp only [Nat.zero_add]
        rw [Nat.mod_eq_of_lt (by omega)]
      · have hb : (ci == 0) = false := beq_eq_false_iff_ne.mpr h
        rw [if_neg (by simp [hb])]
        have he : ci + g.length - 1 = g.length + (ci - 1) := by omega
        rw [he, Nat.add_mod_left, Nat.mod_eq_of_lt (by omega)]
  rw [hidx] at hkey
  have hidxlt : (if reverse then (ci + g.length - 1) % g.length
      else (ci + 1) % g.length) < (fl ++ rem).length := by
    rw [hswlen]
    cases reverse with
    | false =>
      simp only [Bool.false_eq_true, if_false]
      exact Nat.mod_lt _ (by omega)
    | true =>
      simp only [if_true]
      exact Nat.mod_lt _ (by omega)
  have hget : (fl ++ rem).get? (if reverse then (ci + g.length - 1) % g.length
      else (ci + 1) % g.length)
      = some ((fl ++ rem).get ⟨_, hidxlt⟩) := List.get?_eq_get hidxlt
  rw [hget] at hkey
  simp only [Option.getD_some] at hkey
  exact ⟨rem, (fl ++ rem).get ⟨_, hidxlt⟩, hmemrem, hperm, hget, hkey⟩

/-- Witness for the amended C1 at a concrete input: sibling list
`[10, 20, 30, 40]`, cache `("K", 99, 1, [10, 20])`. -/
theorem claim_C1_witness :
    (findModulePath [("K", [10, 20, 30, 40])] 10 = some "K"
      ∧ lookupModule [("K", [10, 20, 30, 40])] "K" = some [10, 20, 30, 40]
      ∧ ([10, 20, 30, 40] : List Int).Nodup
      ∧ ([10, 20] : List Int).Nodup
      ∧ 2 < ([10, 20, 30, 40] : List Int).length
      ∧ (⟨some ("K", 99, 1, [10, 20]), false⟩ : SwitchWindowsState).cache
          = some ("K", 99, 1, [10, 20])
      ∧ (⟨some ("K", 99, 1, [10, 20]), false⟩
          : SwitchWindowsState).modifier_released = false
      ∧ 1 < ([10, 20, 30, 40] : List Int).length)
    ∧ ∃ rem t,
      (∀ x, x ∈ rem ↔ (x ∈ ([10, 20, 30, 40] : List Int) ∧ x ∉ ([10, 20] : List Int)))
      ∧ (([10, 20] : List Int).filter
          (fun id => ([10, 20, 30, 40] : List Int).contains id) ++ rem).Perm
          [10, 20, 30, 40]
      ∧ (([10, 20] : List Int).filter
          (fun id => ([10, 20, 30, 40] : List Int).contains id) ++ rem).get?
          (if false then (1 + ([10, 20, 30, 40] : List Int).length - 1)
              % ([10, 20, 30, 40] : List Int).length
           else (1 + 1) % ([10, 20, 30, 40] : List Int).length) = some t
      ∧ switch_windows ⟨some ("K", 99, 1, [10, 20]), false⟩
          [("K", [10, 20, 30, 40])] 10 false
          = (true,
             { cache := some ("K", 99,
                 (if false then (1 + ([10, 20, 30, 40] : List Int).length - 1)
                     % ([10, 20, 30, 40] : List Int).length
                  else (1 + 1) % ([10, 20, 30, 40] : List Int).length),
                 ([10, 20] : List Int).filter
                   (fun id => ([10, 20, 30, 40] : List Int).contains id)
                   ++ rem),
               modifier_released := false },
             [Effect.activate t]) :=
  ⟨⟨by decide, by decide, by decide, by decide, by decide, rfl, rfl,
    by decide⟩,
   claim_C1 ⟨some ("K", 99, 1, [10, 20]), false⟩ [("K", [10, 20, 30, 40])]
     10 false "K" [10, 20, 30, 40] 99 1 [10, 20]
     (by decide) (by decide) (by decide) (by decide) (by decide) rfl rfl
     (by decide)⟩

/-- Symbolic evaluation of `switch_windows` on the fresh-resolution paths:
two siblings only, no cache, a cache for another application, or a fresh
gesture whose cached anchor is the current foreground or is gone.  The
working order is the natural enumerator order with index 1. -/
theorem switch_windows_fresh (st : SwitchWindowsState) (wins : WinList)
    (hwnd : Int) (reverse : Bool) (mp : String) (g : List Int)
    (hf : findModulePath wins hwnd = some mp)
    (hl : lookupModule wins mp = some g)
    (hg2 : 2 ≤ g.length)
    (hfresh : g.length = 2
      ∨ st.cache = none
      ∨ (∃ k cid ci cws, st.cache = some (k, cid, ci, cws) ∧ k ≠ mp)
      ∨ (∃ k cid ci cws, st.cache = some (k, cid, ci, cws)
          ∧ st.modifier_released = true
          ∧ (cid = g.headD 0
             ∨ g.findIdx? (fun v => v == cid) = none))) :
    switch_windows st wins hwnd reverse
      = (true, ⟨some (mp, g.headD 0, 1, g), false⟩,
         [Effect.activate ((g.get? 1).getD (g.headD 0))]) := by
  have hlen1 : (g.length == 1) = false := beq_eq_false_iff_ne.mpr (by omega)
  rcases hfresh with h2 | hnone | ⟨k, cid, ci, cws, hc, hk⟩
    | ⟨k, cid, ci, cws, hc, hmr, hcid⟩
  · have hngt : ¬(g.length > 2) := by omega
    simp [switch_windows, hf, hl, hlen1, hngt]
  · by_cases hlen : g.length > 2
    · simp [switch_windows, hf, hl, hlen1, hlen, hnone]
    · simp [switch_windows, hf, hl, hlen1, hlen, hnone]
  · have hkb : (k == mp) = false := beq_eq_false_iff_ne.mpr hk
    by_cases hlen : g.length > 2
    · simp [switch_windows, hf, hl, hlen1, hlen, hc, hkb]
    · simp [switch_windows, hf, hl, hlen1, hlen, hc, hkb]
  · by_cases hlen : g.length > 2
    · by_cases hce : cid = g.headD 0
      · have hce2 : cid = g.head?.getD 0 := by
          rwa [List.headD_eq_head?] at hce
        simp [switch_windows, hf, hl, hlen1, hlen, hc, hmr, hce2]
      · have hce2 : ¬cid = g.head?.getD 0 := by
          rwa [List.headD_eq_head?] at hce
        rcases hcid with hceq | hfind
        · exact absurd hceq hce
        · simp [switch_windows, hf, hl, hlen1, hlen, hc, hmr, hce2, hfind]
    · simp [switch_windows, hf, hl, hlen1, hlen]

/-- The pre-advance states from which a window-cycle advance resolves
fresh, used by the amended C5: two siblings, no cache for the application,
or a completed gesture whose cached anchor is the current foreground or no
longer exists. -/
def freshStart (st : SwitchWindowsState) (mp : String) (g : List Int) : Prop :=
  g.length = 2
  ∨ match st.cache with
    | none => True
    | some (k, cid, _, _) =>
      k ≠ mp ∨ (st.modifier_released = true ∧ (cid = g.headD 0 ∨ cid ∉ g))

/-- C5 (amended): when the first advance resolves fresh (no sticky
continuation or re-anchoring applies: no valid same-key cache, or a fresh
gesture anchored at the current foreground window, or exactly two
siblings), advancing forward and then in reverse — modifier held in
between, the second enumeration returning the same window set with the
newly-focused window first — re-activates the original foreground window
`W[0]`. -/
theorem claim_C5 (st : SwitchWindowsState) (wins1 wins2 : WinList)
    (hwnd : Int) (mp : String) (g g2 : List Int)
    (hf1 : findModulePath wins1 hwnd = some mp)
    (hl1 : lookupModule wins1 mp = some g)
    (hgnd : g.Nodup) (hglen : 2 ≤ g.length)
    (hfresh : freshStart st mp g)
    (hf2 : findModulePath wins2 ((g.get? 1).getD 0) = some mp)
    (hl2 : lookupModule wins2 mp = some g2)
    (hperm : g2.Perm g)
    (hhead : g2.headD 0 = (g.get? 1).getD 0) :
    ∃ st1,
      switch_windows st wins1 hwnd false
        = (true, st1, [Effect.activate ((g.get? 1).getD 0)])
      ∧ (switch_windows st1 wins2 ((g.get? 1).getD 0) true).2.2
          = [Effect.activate (g.headD 0)] := by
  have h1lt : 1 < g.length := by omega
  have hget1 : g.get? 1 = some (g.get ⟨1, h1lt⟩) := List.get?_eq_get h1lt
  have hg2nd : g2.Nodup := (hperm.nodup_iff).mpr hgnd
  have hg2len : g2.length = g.length := hperm.length_eq
  have hfresh2 : g.length = 2
      ∨ st.cache = none
      ∨ (∃ k cid ci cws, st.cache = some (k, cid, ci, cws) ∧ k ≠ mp)
      ∨ (∃ k cid ci cws, st.cache = some (k, cid, ci, cws)
          ∧ st.modifier_released = true
          ∧ (cid = g.headD 0
             ∨ g.findIdx? (fun v => v == cid) = none)) := by
    rcases hfreshc : st.cache with _ | ⟨k, cid, ci, cws⟩
    · rcases hfresh with h2 | h
      · exact Or.inl h2
      · exact Or.inr (Or.inl rfl)
    · unfold freshStart at hfresh
      rw [hfreshc] at hfresh
      rcases hfresh with h2 | h
      · exact Or.inl h2
      · rcases h with hk | ⟨hmr, hcid⟩
        · exact Or.inr (Or.inr (Or.inl ⟨k, cid, ci, cws, rfl, hk⟩))
        · refine Or.inr (Or.inr (Or.inr ⟨k, cid, ci, cws, rfl, hmr, ?_⟩))
          rcases hcid with hceq | hnotin
          · exact Or.inl hceq
          · refine Or.inr (List.findIdx?_eq_none_iff.mpr ?_)
            intro x hx
            exact beq_eq_false_iff_ne.mpr (fun he => hnotin (he ▸ hx))
  have hkey1 := switch_windows_fresh st wins1 hwnd false mp g hf1 hl1 hglen hfresh2
  have hact1 : (g.get? 1).getD (g.headD 0) = (g.get? 1).getD 0 := by
    rw [hget1]
    simp only [Option.getD_some]
  rw [hact1] at hkey1
  refine ⟨⟨some (mp, g.headD 0, 1, g), false⟩, hkey1, ?_⟩
  by_cases hgl3 : 2 < g.length
  · have hkey2 := switch_windows_cont ⟨some (mp, g.headD 0, 1, g), false⟩
      wins2 ((g.get? 1).getD 0) true mp g2 (g.headD 0) 1 g hf2 hl2
      (by omega) rfl rfl
    rw [dedupFirst_eq_self hg2nd] at hkey2
    have hrec := reconstruct_spec g g2 hgnd hg2nd
    have hpre : (reconstruct g g2).1 = g := by
      rw [hrec.1]
      refine List.filter_eq_self.mpr ?_
      intro x hx
      exact contains_iff_mem.mpr (hperm.mem_iff.mpr hx)
    have hrem : (reconstruct g g2).2 = [] := by
      rw [List.eq_nil_iff_forall_not_mem]
      intro x hx
      have hx2 := (hrec.2.2 x).mp hx
      exact hx2.2 (hperm.mem_iff.mp hx2.1)
    rw [hpre, hrem, List.append_nil] at hkey2
    have hne : ¬(g.isEmpty = true) := by
      intro h
      rw [List.isEmpty_iff] at h
      rw [h] at hglen
      simp at hglen
    rw [if_neg hne] at hkey2
    rw [hkey2]
    have hz : ((1 : Nat) == 0) = false := by decide
    simp only [if_true, hz, Bool.false_eq_true, if_false]
    have hg0 : (g.get? 0).getD (g.headD 0) = g.headD 0 := by
      rcases g with _ | ⟨a, t⟩
      · simp at hglen
      · rfl
    simp only [hg0]
  · have hglen2 : g.length = 2 := by omega
    have hg2len2 : g2.length = 2 := by omega
    rcases g with _ | ⟨a, gt⟩
    · simp at hglen2
    rcases gt with _ | ⟨b, gt2⟩
    · simp at hglen2
    rcases gt2 with _ | ⟨c, gt3⟩
    · rcases g2 with _ | ⟨x, ht⟩
      · simp at hg2len2
      rcases ht with _ | ⟨y, ht2⟩
      · simp at hg2len2
      rcases ht2 with _ | ⟨z, ht3⟩
      · have hx : x = b := by
          simpa using hhead
        have hyb : y ∈ ([a, b] : List Int) := by
          have hy2 : y ∈ ([x, y] : List Int) := by simp
          exact hperm.mem_iff.mp hy2
        have hab : a ≠ b := by
          rcases List.nodup_cons.mp hgnd with ⟨hna, _⟩
          simp at hna
          exact hna
        have hxy : x ≠ y := by
          rcases List.nodup_cons.mp hg2nd with ⟨hnx, _⟩
          simp at hnx
          exact hnx
        have hy : y = a := by
          rcases (by simpa using hyb : y = a ∨ y = b) with h | h
          · exact h
          · exact absurd (by rw [hx, h]) hxy
        rw [hx, hy] at hl2
        have hkey2 := switch_windows_fresh ⟨some (mp, ([a, b] : List Int).headD 0, 1,
            [a, b]), false⟩ wins2 ((([a, b] : List Int).get? 1).getD 0) true
            mp [b, a] hf2 hl2 (by simp) (Or.inl (by simp))
        rw [hkey2]
        rfl
      · simp at hg2len2
    · simp at hglen2



/-- Counterexample to C5 as stated.  Two concrete runs where forward then
reverse (modifier held, same window set re-enumerated with the newly
focused window first) does not return to the original foreground window:
(a) a fresh gesture with a stale cache anchor re-anchors to the cached
window 30 and reverse then lands on 20, not the original foreground 10;
(b) a mid-cycle continuation whose cached index does not point at the
current foreground ends on 10, not the original foreground 20. -/
theorem claim_C5_counterexample :
    ((switch_windows ⟨some ("K", 30, 2, [10, 20, 30]), true⟩
        [("K", [10, 20, 30])] 10 false).2.2 = [Effect.activate 30]
      ∧ (switch_windows
          (switch_windows ⟨some ("K", 30, 2, [10, 20, 30]), true⟩
            [("K", [10, 20, 30])] 10 false).2.1
          [("K", [30, 10, 20])] 30 true).2.2 = [Effect.activate 20]
      ∧ (20 : Int) ≠ 10)
    ∧ ((switch_windows ⟨some ("K", 10, 0, [10, 20, 30]), false⟩
        [("K", [20, 10, 30])] 20 false).2.2 = [Effect.activate 20]
      ∧ (switch_windows
          (switch_windows ⟨some ("K", 10, 0, [10, 20, 30]), false⟩
            [("K", [20, 10, 30])] 20 false).2.1
          [("K", [20, 10, 30])] 20 true).2.2 = [Effect.activate 10]
      ∧ (10 : Int) ≠ 20) := by
  refine ⟨⟨?_, ?_, ?_⟩, ⟨?_, ?_, ?_⟩⟩ <;> decide


/-- Witness for the amended C5: no prior cache, siblings `[10, 20, 30]`;
forward activates 20, reverse returns to 10. -/
theorem claim_C5_witness :
    (findModulePath [("K", [10, 20, 30])] 10 = some "K"
      ∧ lookupModule [("K", [10, 20, 30])] "K" = some [10, 20, 30]
      ∧ ([10, 20, 30] : List Int).Nodup
      ∧ 2 ≤ ([10, 20, 30] : List Int).length
      ∧ freshStart ⟨none, true⟩ "K" [10, 20, 30]
      ∧ findModulePath [("K", [20, 10, 30])]
          ((([10, 20, 30] : List Int).get? 1).getD 0) = some "K"
      ∧ lookupModule [("K", [20, 10, 30])] "K" = some [20, 10, 30]
      ∧ ([20, 10, 30] : List Int).Perm [10, 20, 30]
      ∧ ([20, 10, 30] : List Int).headD 0
          = (([10, 20, 30] : List Int).get? 1).getD 0)
    ∧ ∃ st1,
        switch_windows ⟨none, true⟩ [("K", [10, 20, 30])] 10 false
          = (true, st1,
             [Effect.activate ((([10, 20, 30] : List Int).get? 1).getD 0)])
        ∧ (switch_windows st1 [("K", [20, 10, 30])]
            ((([10, 20, 30] : List Int).get? 1).getD 0) true).2.2
            = [Effect.activate (([10, 20, 30] : List Int).headD 0)] :=
  ⟨⟨by decide, by decide, by decide, by decide, Or.inr trivial, by decide,
    by decide, by decide, by decide⟩,
   claim_C5 ⟨none, true⟩ [("K", [10, 20, 30])] [("K", [20, 10, 30])] 10 "K"
     [10, 20, 30] [20, 10, 30] (by decide) (by decide) (by decide)
     (by decide) (Or.inr trivial) (by decide) (by decide) (by decide)
     (by decide)⟩

end WindowSwitcher

